import Mathlib

/-!
# Verification of the academic social-network analytical core

Shallow embedding of the analytical core of `red_social_academica.py`:
the in-memory graph state (a name-keyed Person table, a list of
canonicalised collaboration edges, and a removal set), the pure scoring
functions, the centrality computation, the resilience simulation and the
graph-store mutations.  Python dictionaries are modelled as association
lists keeping insertion order, Python sets of strings as `Finset String`,
and Python floats as `ℚ` (every value arising here is a small rational;
`ℚ` division by zero is `0`, matching the code's guarded divisions).
Python's lexicographic string comparison is modelled by a structural
comparison on the character lists so that it evaluates by `decide`.
-/

namespace RedSocial

/-- Lexicographic comparison of character lists by code point: the order
Python uses for `a <= b` on strings. -/
def lexLe : List Char → List Char → Bool
  | [], _ => true
  | _ :: _, [] => false
  | x :: xs, y :: ys =>
    if x < y then true
    else if x = y then lexLe xs ys
    else false

/-- Python's `a <= b` on strings: lexicographic by code point. -/
def str_le (a b : String) : Bool := lexLe a.data b.data

/-- A stored person: `nodes[name] = {"carrera": ..., "intereses": ...}`. -/
structure Person where
  carrera : String
  intereses : Finset String
deriving DecidableEq

/-- The global in-memory state of the program: the `nodes` dictionary
(as an insertion-ordered association list), the `collaborations` list and
the `removed_nodes` set. -/
structure PState where
  nodes : List (String × Person)
  collaborations : List (String × String)
  removed : Finset String
deriving DecidableEq

/-- `normalize_pair(a, b)`: canonical order of an edge's endpoints. -/
def normalize_pair (a b : String) : String × String :=
  if str_le a b then (a, b) else (b, a)

/-- Dictionary lookup `nodes.get(n)`. -/
def lookupNode (s : PState) (n : String) : Option Person :=
  List.lookup n s.nodes

/-- `calculate_interdisciplinary_score(n1, n2)` from the source:
returns `0.0` when either name is unknown; otherwise adds `3.0` when the
`carrera` fields differ, and, when at least one interest set is nonempty
and the union is nonempty, adds `jaccard * 2.0`. -/
def calculate_interdisciplinary_score (s : PState) (n1 n2 : String) : ℚ :=
  match lookupNode s n1, lookupNode s n2 with
  | some info1, some info2 =>
    let score : ℚ := if info1.carrera ≠ info2.carrera then 3 else 0
    let int1 := info1.intereses
    let int2 := info2.intereses
    if int1 ≠ ∅ ∨ int2 ≠ ∅ then
      let intersection := (int1 ∩ int2).card
      let union := (int1 ∪ int2).card
      if union > 0 then score + (intersection : ℚ) / (union : ℚ) * 2 else score
    else score
  | _, _ => 0

/-- The nested loop `for i, n1 in enumerate(node_list): for n2 in
node_list[i+1:]`: all position-ordered pairs of a list. -/
def pairsFrom : List String → List (String × String)
  | [] => []
  | x :: xs => (xs.map fun y => (x, y)) ++ pairsFrom xs

/-- One step of a stable descending insertion sort by a rational key:
the new element goes in front of the first element whose key is not
larger.  Used to model Python's stable `list.sort(key=..., reverse=True)`. -/
def insertByDesc {α : Type} (key : α → ℚ) (x : α) : List α → List α
  | [] => [x]
  | y :: ys => if key y ≤ key x then x :: y :: ys else y :: insertByDesc key x ys

/-- Stable sort, descending by a rational key: the model of
`list.sort(key=lambda x: score(x), reverse=True)`. -/
def sortDescBy {α : Type} (key : α → ℚ) (l : List α) : List α :=
  l.foldr (insertByDesc key) []

/-- `recommend_interdisciplinary_connections(top_n)`: enumerates the
position-ordered pairs of `list(nodes.keys())` (note: the source does not
filter `removed_nodes` here), keeps pairs whose canonical form is not an
existing collaboration and whose score is positive, sorts descending by
score and truncates. -/
def recommend_interdisciplinary_connections (s : PState) (top_n : Nat) :
    List (String × String × ℚ) :=
  let node_list := s.nodes.map Prod.fst
  let recommendations := (pairsFrom node_list).filterMap fun p =>
    if normalize_pair p.1 p.2 ∈ s.collaborations then none
    else
      let score := calculate_interdisciplinary_score s p.1 p.2
      if 0 < score then some (p.1, p.2, score) else none
  (sortDescBy (fun r => r.2.2) recommendations).take top_n

/-! ## The active subgraph and the networkx-derived graph computations

The source delegates graph bookkeeping to `networkx.Graph`.  The graph a
`nx.Graph` holds after the source's construction loops (`add_node` over
non-removed names, `add_edge` over collaborations with both endpoints not
removed) is modelled by `Graph`: an insertion-ordered duplicate-free node
list and a duplicate-free list of undirected edges, where `add_edge` also
inserts missing endpoints, exactly as networkx does. -/

/-- A networkx-style graph: node list in insertion order without
duplicates, undirected edge list without duplicates. -/
structure Graph where
  nodes : List String
  edges : List (String × String)
deriving DecidableEq

/-- Undirected equality of edges: `(a, b)` and `(b, a)` are the same
networkx edge. -/
def sameEdge (e f : String × String) : Bool :=
  (e.1 == f.1 && e.2 == f.2) || (e.1 == f.2 && e.2 == f.1)

/-- `G.add_node(n)`: appends the node unless already present. -/
def addNode (l : List String) (n : String) : List String :=
  if n ∈ l then l else l ++ [n]

/-- Edge insertion of `G.add_edge`: appends the undirected edge unless an
equal edge is already present. -/
def addEdge (l : List (String × String)) (e : String × String) :
    List (String × String) :=
  if l.any fun f => sameEdge e f then l else l ++ [e]

/-- Builds the `nx.Graph` resulting from adding the given nodes and then
the given edges (`add_edge` also inserts missing endpoints). -/
def buildGraph (ns : List String) (es : List (String × String)) : Graph :=
  { nodes := es.foldl (fun acc e => addNode (addNode acc e.1) e.2) (ns.foldl addNode []),
    edges := es.foldl addEdge [] }

/-- The non-removed person names, in insertion order:
`[n for n in nodes if n not in removed_nodes]`. -/
def activeNames (s : PState) : List String :=
  (s.nodes.map Prod.fst).filter fun n => decide (n ∉ s.removed)

/-- The collaborations with both endpoints non-removed. -/
def activeCollabs (s : PState) : List (String × String) :=
  s.collaborations.filter fun e => decide (e.1 ∉ s.removed) && decide (e.2 ∉ s.removed)

/-- The active subgraph, as every analysis function in the source builds
it: active nodes first, then the active collaborations as edges. -/
def activeGraph (s : PState) : Graph :=
  buildGraph (activeNames s) (activeCollabs s)

/-- Adjacency in a graph (undirected). -/
def adjacentB (g : Graph) (u v : String) : Bool :=
  g.edges.any fun e => sameEdge (u, v) e

/-- Number of walks of length `k` from `u` to `v`.  A walk of length
equal to the graph distance is exactly a shortest path, so these counts
determine shortest-path counts. -/
def walkCount (g : Graph) : Nat → String → String → Nat
  | 0, u, v => if u == v then 1 else 0
  | k+1, u, v => ((g.nodes.filter fun w => adjacentB g u w).map fun w => walkCount g k w v).sum

/-- The distance from `u` to `v`: the least walk length with a nonzero
walk count (distances are at most `|nodes|`, so the search range covers
all of them); `none` when unreachable. -/
def distOpt (g : Graph) (u v : String) : Option Nat :=
  (List.range (g.nodes.length + 1)).find? fun k => walkCount g k u v != 0

/-- Reachability: some walk connects `u` to `v`. -/
def reachableB (g : Graph) (u v : String) : Bool :=
  (distOpt g u v).isSome

/-- Fuel-driven count of connected-component representatives: the head
of the remaining list starts a new component; everything reachable from
it is dropped.  Fuel `|nodes|` always suffices. -/
def countRepsAux (g : Graph) : Nat → List String → Nat
  | 0, _ => 0
  | _+1, [] => 0
  | fuel+1, v :: rest => 1 + countRepsAux g fuel (rest.filter fun w => !(reachableB g v w))

/-- Modelled from the spec: `nx.number_connected_components` (library
code not in the repository) — "connected components computed via standard
graph traversal over the undirected active subgraph". -/
def numComponents (g : Graph) : Nat :=
  countRepsAux g g.nodes.length g.nodes

/-- The metrics dictionary of `calculate_network_metrics`. -/
structure NetMetrics where
  nodos : Nat
  aristas : Nat
  componentes : Nat
deriving DecidableEq

/-- `calculate_network_metrics(G)`: all-zero metrics for the empty graph
(zero components, not one), otherwise node count, edge count and
connected-component count. -/
def calculate_network_metrics (g : Graph) : NetMetrics :=
  if g.nodes.length = 0 then ⟨0, 0, 0⟩
  else ⟨g.nodes.length, g.edges.length, numComponents g⟩

/-- networkx degree of a node: incident edge count, self-loops counting
twice. -/
def degree (g : Graph) (v : String) : Nat :=
  g.edges.foldl (fun acc e =>
    acc + (if e.1 = v ∧ e.2 = v then 2 else if e.1 = v ∨ e.2 = v then 1 else 0)) 0

/-- Modelled from the spec: `nx.degree_centrality` (library code not in
the repository) — "degree centrality of node v = deg(v) / (N - 1)";
networkx maps every node to 1 when the graph has at most one node. -/
def degree_centrality (g : Graph) (v : String) : ℚ :=
  if g.nodes.length ≤ 1 then 1
  else (degree g v : ℚ) / ((g.nodes.length : ℚ) - 1)

/-- Number of shortest `u`–`v` paths: the walk count at the distance
(walks of minimal length are exactly the shortest paths). -/
def sigma (g : Graph) (u v : String) : Nat :=
  match distOpt g u v with
  | some d => walkCount g d u v
  | none => 0

/-- Number of shortest `u`–`v` paths passing through `w`: a shortest
path through `w` splits uniquely into a shortest `u`–`w` and a shortest
`w`–`v` path, provided the distances add up. -/
def sigmaThrough (g : Graph) (u v w : String) : Nat :=
  match distOpt g u w, distOpt g w v, distOpt g u v with
  | some d1, some d2, some d =>
    if d1 + d2 = d then walkCount g d1 u w * walkCount g d2 w v else 0
  | _, _, _ => 0

/-- Modelled from the spec: `nx.betweenness_centrality` (library code not
in the repository) — the sum over unordered pairs `(s, t)` with
`s ≠ t ≠ v` of the fraction of shortest `s`–`t` paths passing through
`v` (0 for unreachable pairs), normalized by `(N-1)(N-2)/2` when `N > 2`
(networkx applies no normalization for `N ≤ 2`, where the sum is empty
anyway). -/
def betweenness_centrality (g : Graph) (v : String) : ℚ :=
  let pairs := (pairsFrom g.nodes).filter fun p => decide (p.1 ≠ v) && decide (p.2 ≠ v)
  let raw : ℚ := (pairs.map fun p => (sigmaThrough g p.1 p.2 v : ℚ) / (sigma g p.1 p.2 : ℚ)).sum
  if 2 < g.nodes.length then
    raw * 2 / (((g.nodes.length : ℚ) - 1) * ((g.nodes.length : ℚ) - 2))
  else raw

/-- The per-node dictionary built by `calculate_centrality_metrics`:
`{"grado": ..., "intermediacion": ..., "score_total": ...}`. -/
structure CentMetrics where
  grado : ℚ
  intermediacion : ℚ
  score_total : ℚ
deriving DecidableEq

/-- `calculate_centrality_metrics()`: empty mapping when the active
subgraph has no nodes or no edges, otherwise one entry per node of the
active subgraph with `score_total = grado * 0.5 + intermediacion * 0.5`. -/
def calculate_centrality_metrics (s : PState) : List (String × CentMetrics) :=
  if (activeGraph s).nodes.length = 0 ∨ (activeGraph s).edges.length = 0 then []
  else (activeGraph s).nodes.map fun v =>
    (v, ⟨degree_centrality (activeGraph s) v,
         betweenness_centrality (activeGraph s) v,
         degree_centrality (activeGraph s) v * (1/2) +
           betweenness_centrality (activeGraph s) v * (1/2)⟩)

/-- The interest set of a stored person (`nodes[n]["intereses"]`;
defaults to the empty set on the branch the source cannot reach, since it
only looks up keys of the dictionary). -/
def interestsOf (s : PState) (n : String) : Finset String :=
  ((lookupNode s n).map Person.intereses).getD ∅

/-- `centrality.get(n, {}).get("score_total", 0)`. -/
def centLookup (c : List (String × CentMetrics)) (n : String) : ℚ :=
  ((List.lookup n c).map CentMetrics.score_total).getD 0

/-- The body of the pair loop in `suggest_gap_filling_connections`:
`none` when the canonical pair is an existing collaboration or the
interest sets are disjoint; otherwise the scored suggestion with its
reason string (the common interests, sorted, comma-joined). -/
def gap_candidate (s : PState) (n1 n2 : String) :
    Option (String × String × ℚ × String) :=
  if normalize_pair n1 n2 ∈ s.collaborations then none
  else
    let int1 := interestsOf s n1
    let int2 := interestsOf s n2
    let common := int1 ∩ int2
    if common = ∅ then none
    else
      let similarity : ℚ := (common.card : ℚ) / ((max int1.card int2.card : Nat) : ℚ)
      let cent_bonus : ℚ :=
        if calculate_centrality_metrics s = [] then 0
        else
          max (centLookup (calculate_centrality_metrics s) n1)
              (centLookup (calculate_centrality_metrics s) n2) * (1/2)
      some (n1, n2, similarity + cent_bonus,
        "Intereses: " ++ String.intercalate ", " (common.sort (· ≤ ·)))

/-- The full suggestion list before sorting and truncation. -/
def gapSuggestionsAll (s : PState) : List (String × String × ℚ × String) :=
  (pairsFrom (activeNames s)).filterMap fun p => gap_candidate s p.1 p.2

/-- `suggest_gap_filling_connections(top_n)`: enumerates position-ordered
pairs of the active names, scores them via `gap_candidate`, sorts
descending by score and truncates. -/
def suggest_gap_filling_connections (s : PState) (top_n : Nat) :
    List (String × String × ℚ × String) :=
  (sortDescBy (fun r => r.2.2.1) (gapSuggestionsAll s)).take top_n

/-! ## Mutations, resilience simulation and removal toggling -/

/-- The error taxonomy of the spec: `ValidationError` for malformed
mutation input (empty name, self pair, unknown endpoint, duplicate
edge), `NotFoundError` for references to absent records. -/
inductive MutationError where
  | validation : MutationError
  | notFound : MutationError
deriving DecidableEq

/-- `add_collaboration`: rejects empty names, self-pairs, unknown
endpoints and duplicate canonical pairs; otherwise appends the canonical
pair. -/
def add_collaboration (s : PState) (n1 n2 : String) :
    Except MutationError PState :=
  if n1 = "" ∨ n2 = "" then .error .validation
  else if n1 = n2 then .error .validation
  else if lookupNode s n1 = none ∨ lookupNode s n2 = none then .error .validation
  else if normalize_pair n1 n2 ∈ s.collaborations then .error .validation
  else .ok { s with collaborations := s.collaborations ++ [normalize_pair n1 n2] }

/-- `delete_collaboration`: rejects empty names; reports not-found when
the canonical pair is absent; otherwise removes its first occurrence
(Python's `list.remove`). -/
def delete_collaboration (s : PState) (n1 n2 : String) :
    Except MutationError PState :=
  if n1 = "" ∨ n2 = "" then .error .validation
  else if normalize_pair n1 n2 ∉ s.collaborations then .error .notFound
  else .ok { s with collaborations := s.collaborations.erase (normalize_pair n1 n2) }

/-- `run_simulation` (inner function of `show_resilience_analysis`), in
state-passing form: returns the updated global state and the simulation
report.  The early-return paths (empty selection, unknown or
already-removed node) leave the state unchanged and produce no report;
otherwise the node is added to `removed_nodes` — a real mutation that
persists — and the before/after metrics and deltas are computed. -/
def run_simulation (s : PState) (node_name : String) :
    PState × Option (NetMetrics × NetMetrics × Int × Int) :=
  if node_name = "" then (s, none)
  else if lookupNode s node_name = none ∨ node_name ∈ s.removed then (s, none)
  else
    let metrics_before := calculate_network_metrics (activeGraph s)
    let s2 : PState := { s with removed := insert node_name s.removed }
    let metrics_after := calculate_network_metrics (activeGraph s2)
    (s2, some (metrics_before, metrics_after,
      (metrics_after.componentes : Int) - (metrics_before.componentes : Int),
      (metrics_before.aristas : Int) - (metrics_after.aristas : Int)))

/-- `restore_node` (inner function of `show_resilience_analysis`):
removes the name from `removed_nodes` when present, otherwise a no-op. -/
def restore_node (s : PState) (node_name : String) : PState :=
  if node_name ∈ s.removed then { s with removed := s.removed.erase node_name }
  else s

/-- Modelled from the spec: `setRemoved(name, flag)` — the spec-level
removal toggle (the source has no single such function; `run_simulation`
adds to the removal set and `restore_node` removes from it); the
original behavior silently ignores unknown names. -/
def setRemoved (s : PState) (name : String) (flag : Bool) : PState :=
  if lookupNode s name = none then s
  else if flag then { s with removed := insert name s.removed }
  else { s with removed := s.removed.erase name }

/-- `reset_normal_mode` / "Cerrar y Restaurar Todo": clears the removal
set (`removed_nodes.clear()`). -/
def resetAll (s : PState) : PState :=
  { s with removed := ∅ }

/-- State-passing form of `recommend_interdisciplinary_connections`: the
procedure only reads the global dictionaries, so the translated state
passes through unchanged. -/
def recommend_interdisciplinary_connections_proc (s : PState) (top_n : Nat) :
    PState × List (String × String × ℚ) :=
  (s, recommend_interdisciplinary_connections s top_n)

/-- State-passing form of `suggest_gap_filling_connections`: the
procedure only reads the global dictionaries, so the translated state
passes through unchanged. -/
def suggest_gap_filling_connections_proc (s : PState) (top_n : Nat) :
    PState × List (String × String × ℚ × String) :=
  (s, suggest_gap_filling_connections s top_n)

section SortLemmas

theorem mem_insertByDesc {α : Type} (key : α → ℚ) (x a : α) (l : List α) :
    a ∈ insertByDesc key x l ↔ a = x ∨ a ∈ l := by
  induction l with
  | nil => simp [insertByDesc]
  | cons y ys ih =>
    by_cases h : key y ≤ key x
    · simp [insertByDesc, h]
    · simp [insertByDesc, h, ih]
      tauto

theorem mem_sortDescBy {α : Type} (key : α → ℚ) (a : α) (l : List α) :
    a ∈ sortDescBy key l ↔ a ∈ l := by
  induction l with
  | nil => simp [sortDescBy]
  | cons y ys ih =>
    simp only [sortDescBy, List.foldr_cons, List.mem_cons]
    rw [mem_insertByDesc]
    simp only [sortDescBy] at ih
    rw [ih]

theorem mem_pairsFrom {l : List String} {p : String × String}
    (h : p ∈ pairsFrom l) : p.1 ∈ l ∧ p.2 ∈ l := by
  induction l with
  | nil => simp [pairsFrom] at h
  | cons x xs ih =>
    simp only [pairsFrom, List.mem_append, List.mem_map] at h
    rcases h with ⟨y, hy, hp⟩ | h
    · subst hp
      exact ⟨List.mem_cons_self _ _, List.mem_cons_of_mem _ hy⟩
    · exact ⟨List.mem_cons_of_mem _ (ih h).1, List.mem_cons_of_mem _ (ih h).2⟩

end SortLemmas

section OrderLemmas

theorem lexLe_total (xs ys : List Char) : lexLe xs ys = true ∨ lexLe ys xs = true := by
  induction xs generalizing ys with
  | nil => exact Or.inl rfl
  | cons x xs ih =>
    cases ys with
    | nil => exact Or.inr rfl
    | cons y ys =>
      rcases lt_trichotomy x y with h | h | h
      · left
        simp [lexLe, h]
      · subst h
        rcases ih ys with h2 | h2
        · left
          simp [lexLe, h2]
        · right
          simp [lexLe, h2]
      · right
        simp [lexLe, h]

theorem lexLe_antisymm {xs ys : List Char} (h1 : lexLe xs ys = true)
    (h2 : lexLe ys xs = true) : xs = ys := by
  induction xs generalizing ys with
  | nil =>
    cases ys with
    | nil => rfl
    | cons y ys => simp [lexLe] at h2
  | cons x xs ih =>
    cases ys with
    | nil => simp [lexLe] at h1
    | cons y ys =>
      rcases lt_trichotomy x y with h | h | h
      · have hyx : ¬ y < x := asymm h
        have hne : y ≠ x := ne_of_gt h
        simp [lexLe, hyx, hne] at h2
      · subst h
        simp only [lexLe, lt_irrefl, if_false, if_pos rfl] at h1 h2
        rw [ih h1 h2]
      · have hxy : ¬ x < y := asymm h
        have hne : x ≠ y := ne_of_gt h
        simp [lexLe, hxy, hne] at h1

theorem str_le_total (a b : String) : str_le a b = true ∨ str_le b a = true :=
  lexLe_total a.data b.data

theorem str_le_antisymm {a b : String} (h1 : str_le a b = true)
    (h2 : str_le b a = true) : a = b := by
  cases a with
  | mk da =>
    cases b with
    | mk db =>
      have : da = db := lexLe_antisymm h1 h2
      rw [this]

theorem normalize_pair_comm (a b : String) :
    normalize_pair a b = normalize_pair b a := by
  unfold normalize_pair
  by_cases h1 : str_le a b = true <;> by_cases h2 : str_le b a = true
  · have : a = b := str_le_antisymm h1 h2
    subst this
    rfl
  · rw [if_pos h1, if_neg h2]
  · rw [if_neg h1, if_pos h2]
  · rcases str_le_total a b with h | h
    · exact absurd h h1
    · exact absurd h h2

end OrderLemmas

section ScoreLemmas

theorem score_eq_of_lookup {s : PState} {n1 n2 : String} {p1 p2 : Person}
    (h1 : lookupNode s n1 = some p1) (h2 : lookupNode s n2 = some p2) :
    calculate_interdisciplinary_score s n1 n2 =
      (if p1.carrera ≠ p2.carrera then (3:ℚ) else 0) +
        2 * ((p1.intereses ∩ p2.intereses).card : ℚ) /
          ((p1.intereses ∪ p2.intereses).card : ℚ) := by
  unfold calculate_interdisciplinary_score
  rw [h1, h2]
  by_cases hor : p1.intereses ≠ ∅ ∨ p2.intereses ≠ ∅
  · have hu : ((p1.intereses ∪ p2.intereses).card : Nat) > 0 := by
      refine Finset.card_pos.mpr ?_
      rw [Finset.nonempty_iff_ne_empty]
      intro hemp
      rw [Finset.union_eq_empty] at hemp
      rcases hor with h | h
      · exact h hemp.1
      · exact h hemp.2
    simp only [if_pos hor, if_pos hu]
    ring
  · push_neg at hor
    simp [hor.1, hor.2]

theorem score_eq_zero_of_unknown {s : PState} {n1 n2 : String}
    (h : lookupNode s n1 = none ∨ lookupNode s n2 = none) :
    calculate_interdisciplinary_score s n1 n2 = 0 := by
  unfold calculate_interdisciplinary_score
  rcases h with h | h
  · rw [h]
  · rw [h]
    cases hx : lookupNode s n1
    · rfl
    · rfl

theorem score_nonneg (s : PState) (n1 n2 : String) :
    0 ≤ calculate_interdisciplinary_score s n1 n2 := by
  rcases h1 : lookupNode s n1 with _ | p1
  · rw [score_eq_zero_of_unknown (Or.inl h1)]
  · rcases h2 : lookupNode s n2 with _ | p2
    · rw [score_eq_zero_of_unknown (Or.inr h2)]
    · rw [score_eq_of_lookup h1 h2]
      have ha : (0:ℚ) ≤ if p1.carrera ≠ p2.carrera then (3:ℚ) else 0 := by
        split <;> norm_num
      have hb : (0:ℚ) ≤ 2 * ((p1.intereses ∩ p2.intereses).card : ℚ) /
          ((p1.intereses ∪ p2.intereses).card : ℚ) := by positivity
      linarith

end ScoreLemmas

/-- C2: `calculate_interdisciplinary_score` returns 0 when either name is
unknown; otherwise it is the interdisciplinary bonus (3 when the carreras
differ, else 0) plus `2 × |∩| / |∪|` over the interest sets, with the
interest term 0 when both sets are empty (in `ℚ`, division by the zero
union cardinality yields 0, matching the code's guard); the result is
always nonnegative. -/
theorem C2_score_formula (s : PState) (n1 n2 : String) :
    0 ≤ calculate_interdisciplinary_score s n1 n2 ∧
    ((lookupNode s n1 = none ∨ lookupNode s n2 = none) →
      calculate_interdisciplinary_score s n1 n2 = 0) ∧
    (∀ p1 p2, lookupNode s n1 = some p1 → lookupNode s n2 = some p2 →
      calculate_interdisciplinary_score s n1 n2 =
        (if p1.carrera ≠ p2.carrera then (3:ℚ) else 0) +
          2 * ((p1.intereses ∩ p2.intereses).card : ℚ) /
            ((p1.intereses ∪ p2.intereses).card : ℚ) ∧
      (p1.intereses = ∅ → p2.intereses = ∅ →
        calculate_interdisciplinary_score s n1 n2 =
          if p1.carrera ≠ p2.carrera then (3:ℚ) else 0)) := by
  refine ⟨score_nonneg s n1 n2, score_eq_zero_of_unknown, ?_⟩
  intro p1 p2 h1 h2
  refine ⟨score_eq_of_lookup h1 h2, ?_⟩
  intro e1 e2
  rw [score_eq_of_lookup h1 h2, e1, e2]
  simp

/-- C2 witness: on a concrete state with disciplines `Ing.` vs `Med.` and
interest sets `{x, y}` and `{y, z}`, the score is `3 + 2/3`. -/
theorem C2_score_formula_witness :
    calculate_interdisciplinary_score
        ⟨[("A", ⟨"Ing.", {"x", "y"}⟩), ("B", ⟨"Med.", {"y", "z"}⟩)], [], ∅⟩ "A" "B" =
      (if ("Ing." : String) ≠ "Med." then (3:ℚ) else 0) +
        2 * ((({"x", "y"} : Finset String) ∩ {"y", "z"}).card : ℚ) /
          ((({"x", "y"} : Finset String) ∪ {"y", "z"}).card : ℚ) :=
  ((C2_score_formula ⟨[("A", ⟨"Ing.", {"x", "y"}⟩), ("B", ⟨"Med.", {"y", "z"}⟩)], [], ∅⟩
      "A" "B").2.2 ⟨"Ing.", {"x", "y"}⟩ ⟨"Med.", {"y", "z"}⟩ (by decide) (by decide)).1

/-- C7: the interdisciplinary score is symmetric in its two arguments,
for every state. -/
theorem C7_score_symmetric (s : PState) (n1 n2 : String) :
    calculate_interdisciplinary_score s n1 n2 =
      calculate_interdisciplinary_score s n2 n1 := by
  rcases h1 : lookupNode s n1 with _ | p1
  · rw [score_eq_zero_of_unknown (Or.inl h1), score_eq_zero_of_unknown (Or.inr h1)]
  · rcases h2 : lookupNode s n2 with _ | p2
    · rw [score_eq_zero_of_unknown (Or.inr h2), score_eq_zero_of_unknown (Or.inl h2)]
    · rw [score_eq_of_lookup h1 h2, score_eq_of_lookup h2 h1,
        Finset.inter_comm, Finset.union_comm]
      congr 1
      exact if_congr ne_comm rfl rfl

/-- State used to settle C1: person `A` is in the removal set, yet the
recommender still enumerates it. -/
def sC1 : PState :=
  ⟨[("A", ⟨"Ing.", ∅⟩), ("B", ⟨"Med.", ∅⟩)], [], {"A"}⟩

/-- C1 counterexample: the claim that no returned recommendation has a
removed name as an endpoint is false: in `sC1`, person `A` is removed but
the pair `(A, B)` (score 3) is returned, because the source enumerates
`list(nodes.keys())` without filtering `removed_nodes`. -/
theorem C1_counterexample :
    ("A", "B", (3:ℚ)) ∈ recommend_interdisciplinary_connections sC1 10 ∧
      "A" ∈ sC1.removed := by
  constructor
  · decide
  · decide

/-- C1 (amended): every recommendation returned by
`recommend_interdisciplinary_connections` has both endpoints among the
stored person names (removed or not), its canonical pair is not an
existing collaboration, and its score is positive.  (The original claim's
removal-set filtering does not hold — see `C1_counterexample`.) -/
theorem C1_recommend_scope (s : PState) (top_n : Nat) (r : String × String × ℚ)
    (hr : r ∈ recommend_interdisciplinary_connections s top_n) :
    r.1 ∈ s.nodes.map Prod.fst ∧ r.2.1 ∈ s.nodes.map Prod.fst ∧
      normalize_pair r.1 r.2.1 ∉ s.collaborations ∧ 0 < r.2.2 := by
  unfold recommend_interdisciplinary_connections at hr
  have hr2 := List.mem_of_mem_take hr
  rw [mem_sortDescBy] at hr2
  rw [List.mem_filterMap] at hr2
  obtain ⟨p, hp, heq⟩ := hr2
  by_cases hcol : normalize_pair p.1 p.2 ∈ s.collaborations
  · rw [if_pos hcol] at heq
    exact absurd heq (by simp)
  · rw [if_neg hcol] at heq
    by_cases hsc : 0 < calculate_interdisciplinary_score s p.1 p.2
    · rw [if_pos hsc] at heq
      have hre : r = (p.1, p.2, calculate_interdisciplinary_score s p.1 p.2) :=
        (Option.some.inj heq).symm
      subst hre
      have hmem := mem_pairsFrom hp
      exact ⟨hmem.1, hmem.2, hcol, hsc⟩
    · rw [if_neg hsc] at heq
      exact absurd heq (by simp)

/-- C1 witness: the amended scope property instantiated on `sC1` and the
returned recommendation `(A, B, 3)`. -/
theorem C1_recommend_scope_witness :
    ("A" : String) ∈ sC1.nodes.map Prod.fst ∧
      ("B" : String) ∈ sC1.nodes.map Prod.fst ∧
      normalize_pair "A" "B" ∉ sC1.collaborations ∧ (0:ℚ) < 3 :=
  C1_recommend_scope sC1 10 ("A", "B", 3) (by decide)

/-- C4: `calculate_centrality_metrics` returns the empty mapping when the
active subgraph has zero nodes or zero edges; otherwise its keys are
exactly the nodes of the active subgraph and every entry's combined
`score_total` is `0.5 ×` degree centrality `+ 0.5 ×` betweenness
centrality of that node. -/
theorem C4_centrality_structure (s : PState) :
    ((activeGraph s).nodes.length = 0 ∨ (activeGraph s).edges.length = 0 →
      calculate_centrality_metrics s = []) ∧
    ((activeGraph s).nodes.length ≠ 0 → (activeGraph s).edges.length ≠ 0 →
      (calculate_centrality_metrics s).map Prod.fst = (activeGraph s).nodes ∧
      ∀ p ∈ calculate_centrality_metrics s,
        p.2.score_total = degree_centrality (activeGraph s) p.1 * (1/2) +
          betweenness_centrality (activeGraph s) p.1 * (1/2)) := by
  constructor
  · intro h
    unfold calculate_centrality_metrics
    rw [if_pos h]
  · intro h1 h2
    unfold calculate_centrality_metrics
    rw [if_neg (by tauto)]
    constructor
    · rw [List.map_map]
      exact List.map_id _
    · intro p hp
      rw [List.mem_map] at hp
      obtain ⟨v, _, hv⟩ := hp
      rw [← hv]

/-- C4 witness: on a two-node one-edge state, the mapping's keys are the
active subgraph's nodes. -/
theorem C4_centrality_structure_witness :
    (calculate_centrality_metrics
        ⟨[("A", ⟨"Ing.", ∅⟩), ("B", ⟨"Med.", ∅⟩)], [("A", "B")], ∅⟩).map Prod.fst =
      (activeGraph ⟨[("A", ⟨"Ing.", ∅⟩), ("B", ⟨"Med.", ∅⟩)], [("A", "B")], ∅⟩).nodes :=
  ((C4_centrality_structure ⟨[("A", ⟨"Ing.", ∅⟩), ("B", ⟨"Med.", ∅⟩)], [("A", "B")], ∅⟩).2
    (by decide) (by decide)).1

/-- C8: on an active subgraph with zero nodes, the network metrics are
all zero — in particular the connected-component count is 0, not 1. -/
theorem C8_empty_metrics (s : PState) (h : (activeGraph s).nodes = []) :
    calculate_network_metrics (activeGraph s) = ⟨0, 0, 0⟩ := by
  unfold calculate_network_metrics
  rw [if_pos (by rw [h]; rfl)]

/-- C8 witness: the completely empty state. -/
theorem C8_empty_metrics_witness :
    calculate_network_metrics (activeGraph ⟨[], [], ∅⟩) = ⟨0, 0, 0⟩ :=
  C8_empty_metrics ⟨[], [], ∅⟩ (by decide)

/-- State used to settle C3: two active persons sharing interest `x`,
no collaborations, no edges (so the centrality mapping is empty). -/
def sC3 : PState :=
  ⟨[("A", ⟨"Ing.", {"x"}⟩), ("B", ⟨"Ing.", {"x"}⟩)], [], ∅⟩

/-- C3: for every enumerated candidate pair of
`suggest_gap_filling_connections`: with disjoint interest sets the pair
never appears in the output; with a nonempty intersection the candidate
is scored `|common| / max(|int1|, |int2|) + max(centrality(n1),
centrality(n2)) * 0.5` (a name absent from the centrality mapping
contributing 0, which also covers the source's `if centrality:` guard)
with the reason string listing the common interests sorted and
comma-joined, and that suggestion is in the pre-truncation list. -/
theorem C3_gap_pair_spec (s : PState) (top_n : Nat) (n1 n2 : String)
    (hp : (n1, n2) ∈ pairsFrom (activeNames s))
    (hcol : normalize_pair n1 n2 ∉ s.collaborations) :
    (interestsOf s n1 ∩ interestsOf s n2 = ∅ →
      ∀ q r, (n1, n2, q, r) ∉ suggest_gap_filling_connections s top_n) ∧
    (interestsOf s n1 ∩ interestsOf s n2 ≠ ∅ →
      gap_candidate s n1 n2 = some (n1, n2,
        ((interestsOf s n1 ∩ interestsOf s n2).card : ℚ) /
          ((max (interestsOf s n1).card (interestsOf s n2).card : Nat) : ℚ) +
          max (centLookup (calculate_centrality_metrics s) n1)
              (centLookup (calculate_centrality_metrics s) n2) * (1/2),
        "Intereses: " ++ String.intercalate ", "
          ((interestsOf s n1 ∩ interestsOf s n2).sort (· ≤ ·))) ∧
      (n1, n2,
        ((interestsOf s n1 ∩ interestsOf s n2).card : ℚ) /
          ((max (interestsOf s n1).card (interestsOf s n2).card : Nat) : ℚ) +
          max (centLookup (calculate_centrality_metrics s) n1)
              (centLookup (calculate_centrality_metrics s) n2) * (1/2),
        "Intereses: " ++ String.intercalate ", "
          ((interestsOf s n1 ∩ interestsOf s n2).sort (· ≤ ·))) ∈
        gapSuggestionsAll s) := by
  have key : interestsOf s n1 ∩ interestsOf s n2 ≠ ∅ →
      gap_candidate s n1 n2 = some (n1, n2,
        ((interestsOf s n1 ∩ interestsOf s n2).card : ℚ) /
          ((max (interestsOf s n1).card (interestsOf s n2).card : Nat) : ℚ) +
          max (centLookup (calculate_centrality_metrics s) n1)
              (centLookup (calculate_centrality_metrics s) n2) * (1/2),
        "Intereses: " ++ String.intercalate ", "
          ((interestsOf s n1 ∩ interestsOf s n2).sort (· ≤ ·))) := by
    intro hne
    unfold gap_candidate
    rw [if_neg hcol, if_neg hne]
    by_cases hc : calculate_centrality_metrics s = []
    · rw [if_pos hc, hc]
      simp [centLookup]
    · rw [if_neg hc]
  constructor
  · intro hempty q r hmem
    unfold suggest_gap_filling_connections at hmem
    have hmem2 := List.mem_of_mem_take hmem
    rw [mem_sortDescBy] at hmem2
    unfold gapSuggestionsAll at hmem2
    rw [List.mem_filterMap] at hmem2
    obtain ⟨p, _, heq⟩ := hmem2
    unfold gap_candidate at heq
    by_cases hA : normalize_pair p.1 p.2 ∈ s.collaborations
    · rw [if_pos hA] at heq
      exact Option.noConfusion heq
    · rw [if_neg hA] at heq
      by_cases hB : interestsOf s p.1 ∩ interestsOf s p.2 = ∅
      · rw [if_pos hB] at heq
        exact Option.noConfusion heq
      · rw [if_neg hB] at heq
        rw [Option.some.injEq, Prod.mk.injEq] at heq
        obtain ⟨e1, heq⟩ := heq
        rw [Prod.mk.injEq] at heq
        obtain ⟨e2, -⟩ := heq
        rw [e1, e2] at hB
        exact hB hempty
  · intro hne
    refine ⟨key hne, ?_⟩
    unfold gapSuggestionsAll
    rw [List.mem_filterMap]
    exact ⟨(n1, n2), hp, key hne⟩

/-- C3 witness: the scored-candidate branch instantiated on `sC3` at the
enumerated pair `(A, B)`. -/
theorem C3_gap_pair_spec_witness :
    gap_candidate sC3 "A" "B" = some ("A", "B",
      ((interestsOf sC3 "A" ∩ interestsOf sC3 "B").card : ℚ) /
        ((max (interestsOf sC3 "A").card (interestsOf sC3 "B").card : Nat) : ℚ) +
        max (centLookup (calculate_centrality_metrics sC3) "A")
            (centLookup (calculate_centrality_metrics sC3) "B") * (1/2),
      "Intereses: " ++ String.intercalate ", "
        ((interestsOf sC3 "A" ∩ interestsOf sC3 "B").sort (· ≤ ·))) :=
  ((C3_gap_pair_spec sC3 10 "A" "B" (by decide) (by decide)).2 (by decide)).1

section CollabLemmas

theorem add_succeeds {s : PState} {a b : String}
    (hne : a ≠ b) (hea : a ≠ "") (heb : b ≠ "")
    (hka : lookupNode s a ≠ none) (hkb : lookupNode s b ≠ none)
    (hfree : normalize_pair a b ∉ s.collaborations) :
    add_collaboration s a b =
      .ok { s with collaborations := s.collaborations ++ [normalize_pair a b] } := by
  unfold add_collaboration
  rw [if_neg (by tauto), if_neg hne, if_neg (by tauto), if_neg hfree]

theorem delete_succeeds {s : PState} {n1 n2 : String}
    (he1 : n1 ≠ "") (he2 : n2 ≠ "")
    (hmem : normalize_pair n1 n2 ∈ s.collaborations) :
    delete_collaboration s n1 n2 =
      .ok { s with collaborations := s.collaborations.erase (normalize_pair n1 n2) } := by
  unfold delete_collaboration
  rw [if_neg (by tauto), if_neg (by rw [not_not]; exact hmem)]

end CollabLemmas

/-- C6: starting from a state where `a` and `b` are distinct existing
Persons (with non-empty names, the data-model invariant of the store)
whose canonical pair is not yet a Collaboration, the sequence add, then
remove, then add — each step with either argument order, selected by the
three Booleans — succeeds throughout and leaves the canonical edge
present exactly once. -/
theorem C6_round_trip (s : PState) (a b : String)
    (hne : a ≠ b) (hea : a ≠ "") (heb : b ≠ "")
    (hka : lookupNode s a ≠ none) (hkb : lookupNode s b ≠ none)
    (hfree : normalize_pair a b ∉ s.collaborations) :
    ∀ o1 o2 o3 : Bool,
      add_collaboration s (cond o1 a b) (cond o1 b a) =
        .ok { s with collaborations := s.collaborations ++ [normalize_pair a b] } ∧
      delete_collaboration
          { s with collaborations := s.collaborations ++ [normalize_pair a b] }
          (cond o2 a b) (cond o2 b a) = .ok s ∧
      add_collaboration s (cond o3 a b) (cond o3 b a) =
        .ok { s with collaborations := s.collaborations ++ [normalize_pair a b] } ∧
      (s.collaborations ++ [normalize_pair a b]).count (normalize_pair a b) = 1 := by
  have addA : ∀ x y : String, ((x = a ∧ y = b) ∨ (x = b ∧ y = a)) →
      add_collaboration s x y =
        .ok { s with collaborations := s.collaborations ++ [normalize_pair a b] } := by
    rintro x y (⟨hx, hy⟩ | ⟨hx, hy⟩)
    · rw [hx, hy]
      exact add_succeeds hne hea heb hka hkb hfree
    · rw [hx, hy]
      have h := add_succeeds (s := s) hne.symm heb hea hkb hka
        (by rwa [normalize_pair_comm b a])
      rwa [normalize_pair_comm b a] at h
  have herase :
      (s.collaborations ++ [normalize_pair a b]).erase (normalize_pair a b) =
        s.collaborations := by
    rw [List.erase_append_right _ hfree, List.erase_cons_head]
    simp
  have delA : ∀ x y : String, ((x = a ∧ y = b) ∨ (x = b ∧ y = a)) →
      delete_collaboration
          { s with collaborations := s.collaborations ++ [normalize_pair a b] }
          x y = .ok s := by
    rintro x y (⟨hx, hy⟩ | ⟨hx, hy⟩)
    · rw [hx, hy]
      rw [delete_succeeds hea heb (by simp)]
      rw [herase]
    · rw [hx, hy]
      rw [delete_succeeds heb hea (by rw [normalize_pair_comm b a]; simp)]
      rw [normalize_pair_comm b a, herase]
  have hcount : (s.collaborations ++ [normalize_pair a b]).count (normalize_pair a b) = 1 := by
    rw [List.count_append, List.count_eq_zero_of_not_mem hfree]
    simp
  intro o1 o2 o3
  cases o1 <;> cases o2 <;> cases o3 <;>
    exact ⟨addA _ _ (by simp), delA _ _ (by simp), addA _ _ (by simp), hcount⟩

/-- C6 witness: the round trip on a concrete two-person state with the
argument orders `(B, A)`, `(A, B)`, `(B, A)`. -/
theorem C6_round_trip_witness :
    add_collaboration ⟨[("A", ⟨"Ing.", ∅⟩), ("B", ⟨"Med.", ∅⟩)], [], ∅⟩ "B" "A" =
      .ok ⟨[("A", ⟨"Ing.", ∅⟩), ("B", ⟨"Med.", ∅⟩)], [("A", "B")], ∅⟩ ∧
    delete_collaboration ⟨[("A", ⟨"Ing.", ∅⟩), ("B", ⟨"Med.", ∅⟩)], [("A", "B")], ∅⟩
        "A" "B" = .ok ⟨[("A", ⟨"Ing.", ∅⟩), ("B", ⟨"Med.", ∅⟩)], [], ∅⟩ ∧
    add_collaboration ⟨[("A", ⟨"Ing.", ∅⟩), ("B", ⟨"Med.", ∅⟩)], [], ∅⟩ "B" "A" =
      .ok ⟨[("A", ⟨"Ing.", ∅⟩), ("B", ⟨"Med.", ∅⟩)], [("A", "B")], ∅⟩ ∧
    ([("A", "B")] : List (String × String)).count ("A", "B") = 1 :=
  C6_round_trip ⟨[("A", ⟨"Ing.", ∅⟩), ("B", ⟨"Med.", ∅⟩)], [], ∅⟩ "A" "B"
    (by decide) (by decide) (by decide) (by decide) (by decide) (by decide)
    false true false

/-- C5: the resilience simulation fails and leaves the state unchanged
when the node is unknown or already removed; whenever it produces a
report, the node has been inserted into the removal set (a persisting
mutation), the before-metrics are those of the active subgraph prior to
the removal, the after-metrics those of the active subgraph after it,
and the deltas are `after.components - before.components` and
`before.edges - after.edges`. -/
theorem C5_run_simulation_spec (s : PState) (x : String) :
    ((lookupNode s x = none ∨ x ∈ s.removed) → run_simulation s x = (s, none)) ∧
    (∀ mb ma cd ed, (run_simulation s x).2 = some (mb, ma, cd, ed) →
      (run_simulation s x).1 = { s with removed := insert x s.removed } ∧
      mb = calculate_network_metrics (activeGraph s) ∧
      ma = calculate_network_metrics
        (activeGraph { s with removed := insert x s.removed }) ∧
      cd = (ma.componentes : Int) - (mb.componentes : Int) ∧
      ed = (mb.aristas : Int) - (ma.aristas : Int)) := by
  constructor
  · intro h
    unfold run_simulation
    by_cases he : x = ""
    · rw [if_pos he]
    · rw [if_neg he, if_pos h]
  · intro mb ma cd ed h
    unfold run_simulation at h ⊢
    by_cases he : x = ""
    · rw [if_pos he] at h
      exact Option.noConfusion h
    · rw [if_neg he] at h ⊢
      by_cases hk : lookupNode s x = none ∨ x ∈ s.removed
      · rw [if_pos hk] at h
        exact Option.noConfusion h
      · rw [if_neg hk] at h ⊢
        dsimp only at h ⊢
        rw [Option.some.injEq] at h
        simp only [Prod.mk.injEq] at h
        obtain ⟨e1, e2, e3, e4⟩ := h
        refine ⟨rfl, e1.symm, e2.symm, ?_, ?_⟩
        · rw [← e3, ← e1, ← e2]
        · rw [← e4, ← e1, ← e2]

/-- State used to settle C5: the 4-node path `A–B–C–D` of the spec's
resilience scenario. -/
def sC5 : PState :=
  ⟨[("A", ⟨"Ing.", ∅⟩), ("B", ⟨"Ing.", ∅⟩), ("C", ⟨"Ing.", ∅⟩), ("D", ⟨"Ing.", ∅⟩)],
   [("A", "B"), ("B", "C"), ("C", "D")], ∅⟩

/-- C5 witness: removing `B` from the path `A–B–C–D` yields before
metrics (4 nodes, 3 edges, 1 component), after metrics (3, 1, 2),
component delta 1 and edge delta 2, and the state now carries `B` in the
removal set. -/
theorem C5_run_simulation_spec_witness :
    (run_simulation sC5 "B").1 = { sC5 with removed := insert "B" sC5.removed } ∧
    (⟨4, 3, 1⟩ : NetMetrics) = calculate_network_metrics (activeGraph sC5) ∧
    (⟨3, 1, 2⟩ : NetMetrics) = calculate_network_metrics
      (activeGraph { sC5 with removed := insert "B" sC5.removed }) ∧
    (1 : Int) = ((2 : Nat) : Int) - ((1 : Nat) : Int) ∧
    (2 : Int) = ((3 : Nat) : Int) - ((1 : Nat) : Int) :=
  (C5_run_simulation_spec sC5 "B").2 ⟨4, 3, 1⟩ ⟨3, 1, 2⟩ 1 2 (by decide)

/-- C10: neither the resilience simulation, nor node restoration, nor
the removal toggle, nor the removal-set reset ever touches the
collaboration list; a collaboration with a removed endpoint `x` is thus
retained, and it is part of the active subgraph's edge pool again right
after `x` is restored, provided its other endpoint is not itself
removed. -/
theorem C10_removal_preserves_collaborations (s : PState) (x : String) :
    (run_simulation s x).1.collaborations = s.collaborations ∧
    (restore_node s x).collaborations = s.collaborations ∧
    (∀ flag, (setRemoved s x flag).collaborations = s.collaborations) ∧
    (resetAll s).collaborations = s.collaborations ∧
    (∀ e ∈ s.collaborations, (e.1 = x ∨ e.2 = x) →
      e ∈ (restore_node s x).collaborations ∧
      ((e.1 = x ∨ e.1 ∉ s.removed) → (e.2 = x ∨ e.2 ∉ s.removed) →
        e ∈ activeCollabs (restore_node s x))) := by
  have hrs : (run_simulation s x).1.collaborations = s.collaborations := by
    unfold run_simulation
    by_cases he : x = ""
    · rw [if_pos he]
    · rw [if_neg he]
      by_cases hk : lookupNode s x = none ∨ x ∈ s.removed
      · rw [if_pos hk]
      · rw [if_neg hk]
  have hre : (restore_node s x).collaborations = s.collaborations := by
    unfold restore_node
    by_cases hm : x ∈ s.removed
    · rw [if_pos hm]
    · rw [if_neg hm]
  have hremoved : ∀ y : String, (y = x ∨ y ∉ s.removed) →
      y ∉ (restore_node s x).removed := by
    intro y hy
    unfold restore_node
    by_cases hm : x ∈ s.removed
    · rw [if_pos hm]
      rcases hy with hy | hy
      · rw [hy]
        exact Finset.not_mem_erase x s.removed
      · intro hc
        exact hy (Finset.mem_of_mem_erase hc)
    · rw [if_neg hm]
      rcases hy with hy | hy
      · rw [hy]
        exact hm
      · exact hy
  refine ⟨hrs, hre, ?_, rfl, ?_⟩
  · intro flag
    unfold setRemoved
    by_cases hk : lookupNode s x = none
    · rw [if_pos hk]
    · rw [if_neg hk]
      cases flag
      · rw [if_neg Bool.false_ne_true]
      · rw [if_pos rfl]
  · intro e he _
    refine ⟨hre ▸ he, ?_⟩
    intro h1 h2
    unfold activeCollabs
    rw [List.mem_filter]
    refine ⟨hre ▸ he, ?_⟩
    rw [Bool.and_eq_true, decide_eq_true_eq, decide_eq_true_eq]
    exact ⟨hremoved e.1 h1, hremoved e.2 h2⟩

/-- C10 witness: in a state where `A` is removed, the edge `(A, B)` is
retained and becomes active again right after restoring `A`. -/
theorem C10_removal_preserves_collaborations_witness :
    ("A", "B") ∈ (restore_node
        ⟨[("A", ⟨"Ing.", ∅⟩), ("B", ⟨"Med.", ∅⟩)], [("A", "B")], {"A"}⟩
        "A").collaborations ∧
    ("A", "B") ∈ activeCollabs (restore_node
        ⟨[("A", ⟨"Ing.", ∅⟩), ("B", ⟨"Med.", ∅⟩)], [("A", "B")], {"A"}⟩ "A") :=
  ((C10_removal_preserves_collaborations
      ⟨[("A", ⟨"Ing.", ∅⟩), ("B", ⟨"Med.", ∅⟩)], [("A", "B")], {"A"}⟩ "A").2.2.2.2
    ("A", "B") (by decide) (by decide)).imp id (fun f => f (by decide) (by decide))

/-- C9: both ranked query functions are read-only — in state-passing
form they return the graph state with the person table, the
collaboration list and the removal set unchanged. -/
theorem C9_queries_read_only (s : PState) (top_n : Nat) :
    ((recommend_interdisciplinary_connections_proc s top_n).1.nodes = s.nodes ∧
     (recommend_interdisciplinary_connections_proc s top_n).1.collaborations =
       s.collaborations ∧
     (recommend_interdisciplinary_connections_proc s top_n).1.removed = s.removed) ∧
    ((suggest_gap_filling_connections_proc s top_n).1.nodes = s.nodes ∧
     (suggest_gap_filling_connections_proc s top_n).1.collaborations =
       s.collaborations ∧
     (suggest_gap_filling_connections_proc s top_n).1.removed = s.removed) :=
  ⟨⟨rfl, rfl, rfl⟩, ⟨rfl, rfl, rfl⟩⟩

end RedSocial
